import Mathlib

/-!
Verification of the incremental SharePoint ETL engine (`sharepoint_etl.py`).

The Python source is shallowly embedded: a spreadsheet cell is `Option String`
(`none` models a pandas NaN/missing value), a row is an association list from
column name to cell, the processed-files ledger is an association list from
file path to ISO-8601 timestamp string (modelling the JSON dict), and the
remote document store is a record of the walker output together with the two
fallible remote calls (timestamp fetch and content read), each returning
`Option` to model the caught exceptions of the source.
-/

abbrev Cell := Option String

abbrev Row := List (String × Cell)

abbrev Ledger := List (String × String)

/-- String representation of a cell, as produced by `df.astype(str)` in the
QC filter: a missing value (NaN) prints as "nan". -/
def cellStr (c : Cell) : String := c.getD "nan"

/-- The characters of a string, lower-cased; used for the case-insensitive
matching done with `.lower()` / `case=False` in the source. -/
def lowerData (s : String) : List Char := s.data.map Char.toLower

/-- Case-insensitive substring test: `pat.lower() in hay.lower()` in Python,
and the semantics of `str.contains(pat, case=False)` for the literal
(non-special) QC patterns of the source. -/
def containsCI (hay pat : String) : Bool :=
  decide (lowerData pat <:+: lowerData hay)

/-- Source line 130: `qc_patterns = ["CCV", "MB", "Blank", "Check"]`. -/
def qc_patterns : List String := ["CCV", "MB", "Blank", "Check"]

/-- Source line 139: the configured required key columns, Sample ID and Result. -/
def key_columns : List String := ["Sample ID", "Result"]

/-- A row all of whose values are NaN: dropped by `df.dropna(how='all')`. -/
def isBlankRow (r : Row) : Bool := r.all (fun e => e.2.isNone)

/-- Line 134: some column of the row contains one of the QC patterns,
case-insensitively, in its string representation. -/
def rowHasQC (r : Row) : Bool :=
  r.any (fun e => qc_patterns.any (fun pat => containsCI (cellStr e.2) pat))

/-- Cell of a row at column `k`; an absent column reads as NaN, matching a
pandas frame in which unioned-in columns are NaN-filled. -/
def getCell (r : Row) (k : String) : Cell :=
  match r.find? (fun e => e.1 == k) with
  | some e => e.2
  | none => none

/-- Line 141: `col in df.columns` — the column occurs somewhere in the frame. -/
def dfHasColumn (df : List Row) (k : String) : Bool :=
  df.any (fun r => r.any (fun e => e.1 == k))

/-- Line 141: `key_columns_exist = [col for col in key_columns if col in df.columns]`. -/
def key_columns_exist (df : List Row) : List String :=
  key_columns.filter (fun k => dfHasColumn df k)

/-- Cleaning stage 1 (line 125): `df.dropna(how='all', inplace=True)`. -/
def dropBlankRows (df : List Row) : List Row :=
  df.filter (fun r => !(isBlankRow r))

/-- Cleaning stage 2 (line 134): drop rows where any column contains a QC
pattern case-insensitively. -/
def dropQCRows (df : List Row) : List Row :=
  df.filter (fun r => !(rowHasQC r))

/-- Cleaning stage 3 (lines 141-146): `df.dropna(subset=key_columns_exist)`
when at least one configured key column exists, else a warning and no-op. -/
def dropPartialRows (df : List Row) : List Row :=
  let ks := key_columns_exist df
  if ks.isEmpty then df
  else df.filter (fun r => ks.all (fun k => (getCell r k).isSome))

/-- Python `str.strip()`: remove leading and trailing whitespace. -/
def pyStrip (s : String) : String :=
  String.mk (((s.data.dropWhile Char.isWhitespace).reverse.dropWhile
    Char.isWhitespace).reverse)

/-- One row under stage 4 (lines 151-152): every string value stripped;
NaN stays NaN (`.str.strip()` leaves missing values missing). -/
def trimRow (r : Row) : Row := r.map (fun e => (e.1, e.2.map pyStrip))

/-- Cleaning stage 4 (lines 151-152): strip whitespace on the object columns. -/
def trimStrings (df : List Row) : List Row := df.map trimRow

/-- Function `clean_and_filter_data` (lines 119-155): the four stages in source order,
as the value returned to the caller. -/
def clean_and_filter_data (df : List Row) : List Row :=
  trimStrings (dropPartialRows (dropQCRows (dropBlankRows df)))

/-!  Heap model of `clean_and_filter_data`.

The source mutates: line 125 runs `df.dropna(how='all', inplace=True)` on the
very object the caller passed in; line 134 rebinds the local `df` to a fresh
object, on which lines 143 and 151-152 then operate in place.  To reason about
what the caller observes, the function is also embedded over an explicit heap
of DataFrame objects: `heap` is the object store, `ref` the index of the
argument object, and the result is the final heap together with the index of
the returned object. -/
def clean_and_filter_heap (heap : List (List Row)) (ref : Nat) :
    List (List Row) × Nat :=
  let h1 := heap.set ref (dropBlankRows (heap.getD ref []))
  let v2 := dropQCRows (h1.getD ref [])
  let h2 := h1 ++ [v2]
  let r2 := h1.length
  let h3 := h2.set r2 (dropPartialRows (h2.getD r2 []))
  let h4 := h3.set r2 (trimStrings (h3.getD r2 []))
  (h4, r2)

/-! Extraction (`process_excel_file`, lines 83-116). -/

/-- A decoded worksheet: its name and its raw grid of cells; the first grid
row is the header row (`xls.parse` with default `header=0`). -/
structure Sheet where
  name : String
  grid : List (List Cell)
deriving DecidableEq

/-- Source line 86: `sheets_to_process = ["Batch Sheet", "Product Info"]`. -/
def sheets_to_process : List String := ["Batch Sheet", "Product Info"]

/-- Lines 94-98: the for-loop with `break` that picks the first available
sheet whose lowered name contains the lowered target name. -/
def findSheetLoop : List Sheet → String → Option Sheet
  | [], _ => none
  | s :: rest, target =>
    if containsCI s.name target then some s else findSheetLoop rest target

/-- Column assignment `df[k] = v` (line 106): overwrite the column if it
exists, append it otherwise. -/
def setCol (r : Row) (k : String) (v : Cell) : Row :=
  if r.any (fun e => e.1 == k) then
    r.map (fun e => if e.1 == k then (k, v) else e)
  else r ++ [(k, v)]

/-- Parsing a sheet, `xls.parse(name)` of line 104: first grid row becomes the headers, every
later grid row is zipped against them. -/
def parseSheet (s : Sheet) : List Row :=
  match s.grid with
  | [] => []
  | hdr :: rest => rest.map (fun cells => List.zip (hdr.map cellStr) cells)

/-- Line 106: `df['_SourceSheet'] = actual_sheet_name` over all parsed rows. -/
def tagSourceSheet (name : String) (rows : List Row) : List Row :=
  rows.map (fun r => setCol r "_SourceSheet" (some name))

/-- Function `process_excel_file` (lines 83-116): for each target name, find the first
matching sheet, parse and tag it, and concatenate into the accumulator; a
missing target only warns and contributes nothing. -/
def process_excel_file (sheets : List Sheet) : List Row :=
  sheets_to_process.foldl
    (fun acc target =>
      match findSheetLoop sheets target with
      | some s => acc ++ tagSourceSheet s.name (parseSheet s)
      | none => acc)
    []

/-- Modelled from the spec (section 4.3), for comparison with
`process_excel_file`: for each target name in order, the first available
sheet name containing the target case-insensitively is selected, its parsed
rows are tagged with `_SourceSheet` equal to the matched sheet's actual name,
and the matched tables' rows are concatenated in target-name order. -/
def extractSpec (sheets : List Sheet) : List Row :=
  sheets_to_process.flatMap
    (fun target =>
      match sheets.find? (fun s => containsCI s.name target) with
      | some s => (parseSheet s).map (fun r => setCol r "_SourceSheet" (some s.name))
      | none => [])

/-! The run loop (`run_etl`, lines 188-264) and the ledger. -/

/-- JSON-dict read `ledger[p]` / containment test, on the assoc-list model. -/
def ledgerLookup (l : Ledger) (p : String) : Option String :=
  (l.find? (fun e => e.1 == p)).map (fun e => e.2)

/-- JSON-dict assignment `ledger[p] = v`: replace if present, append if new. -/
def ledgerUpsert (l : Ledger) (p v : String) : Ledger :=
  if l.any (fun e => e.1 == p) then
    l.map (fun e => if e.1 == p then (p, v) else e)
  else l ++ [(p, v)]

/-- The remote document store as seen by one run: the walker output `files`
(in traversal order), the timestamp fetch `mtime` (already composed with the
`isoformat()` normalisation of line 209; `none` models the caught fetch
failure of lines 183-185), and the content read `content` (`none` models
`read_excel_from_sharepoint` returning `None`, lines 79-81). -/
structure Remote where
  files : List String
  mtime : String → Option String
  content : String → Option (List Sheet)

/-- Lines 221-233: the body run for a file selected as New or Modified —
read the content, extract, and only when extraction produced at least one row
clean it, append the cleaned rows, and update the in-memory ledger. -/
def processSelected (remote : Remote) (acc : List Row × Ledger)
    (p ts : String) : List Row × Ledger :=
  match remote.content p with
  | none => acc
  | some sheets =>
    let fileData := process_excel_file sheets
    if fileData.isEmpty then acc
    else (acc.1 ++ clean_and_filter_data fileData, ledgerUpsert acc.2 p ts)

/-- Lines 204-235: one iteration of the file loop.  `ledger0` is the ledger
loaded at run start (classification always compares against it), `acc` the
pair of accumulated rows and the in-memory updated ledger. -/
def processOne (remote : Remote) (ledger0 : Ledger)
    (acc : List Row × Ledger) (p : String) : List Row × Ledger :=
  match remote.mtime p with
  | none => acc
  | some ts =>
    match ledgerLookup ledger0 p with
    | some t => if t = ts then acc else processSelected remote acc p ts
    | none => processSelected remote acc p ts

/-- The in-memory part of `run_etl` (lines 200-235): fold the file loop over
the walker output, starting from no accumulated rows and a copy of the loaded
ledger. -/
def run_etl_core (remote : Remote) (ledger0 : Ledger) : List Row × Ledger :=
  remote.files.foldl (processOne remote ledger0) ([], ledger0)

/-- File-change classification as described by the detector rules
(lines 211-219): not in ledger means New, exact timestamp-string equality
means Unchanged, anything else means Modified. -/
inductive FileChangeState where
  | New
  | Modified
  | Unchanged
deriving DecidableEq

/-- The classification rule applied to a file with current timestamp `ts`. -/
def classify (ledger : Ledger) (p ts : String) : FileChangeState :=
  match ledgerLookup ledger p with
  | none => FileChangeState.New
  | some t => if t = ts then FileChangeState.Unchanged else FileChangeState.Modified

/-- The on-disk artifacts of a run: the master dataset (`none` while the
file does not yet exist) and the persisted ledger file. -/
structure DiskState where
  master : Option (List Row)
  ledgerFile : Ledger
deriving DecidableEq

/-- Lines 238-264: the end-of-run commit.  With no accumulated rows the
ledger is still saved; otherwise the master is read, appended to and written
back, and only on a successful write (`writeOk`) is the ledger saved — the
exception handler of lines 258-259 persists nothing. -/
def commitRun (writeOk : Bool) (disk : DiskState) (rows : List Row)
    (updated : Ledger) : DiskState :=
  if rows.isEmpty then { master := disk.master, ledgerFile := updated }
  else if writeOk then
    { master := some ((disk.master.getD []) ++ rows), ledgerFile := updated }
  else disk

/-- Function `run_etl` (lines 188-264) over the explicit disk state: load the ledger,
run the file loop, commit.  `writeOk` models whether the master-dataset write
of line 251 succeeds. -/
def run_etl (writeOk : Bool) (remote : Remote) (disk : DiskState) : DiskState :=
  let res := run_etl_core remote disk.ledgerFile
  commitRun writeOk disk res.1 res.2

/-! Ledger persistence (`save_processed_files_log`, lines 169-172). -/

/-- One `"path": "timestamp"` JSON entry. -/
def serializeLedgerEntry (e : String × String) : String :=
  "\"" ++ e.1 ++ "\": \"" ++ e.2 ++ "\""

/-- The JSON text `json.dump` produces for the ledger dict (whitespace
normalised to one line; only distinctness of contents matters here). -/
def serializeLedger (l : Ledger) : String :=
  "\x7b" ++ String.intercalate ", " (l.map serializeLedgerEntry) ++ "\x7d"

/-- The successive on-disk contents of the ledger file during
`save_processed_files_log` (lines 169-172): the pre-call contents, then the
empty file left by `open(log_file, 'w')` truncating in place, then the dumped
JSON.  There is no temporary file and no rename. -/
def save_processed_files_log_states (oldContent : String) (log : Ledger) :
    List String :=
  [oldContent, "", serializeLedger log]

/-! Conditions characterising when the run updates a ledger entry. -/

/-- The content read succeeded and extraction produced at least one row. -/
def extractionNonEmpty (remote : Remote) (p : String) : Bool :=
  match remote.content p with
  | some sheets => !(process_excel_file sheets).isEmpty
  | none => false

/-- The file would be classified New or Modified against `ledger0`. -/
def selectedForProcessing (ledger0 : Ledger) (p ts : String) : Bool :=
  match ledgerLookup ledger0 p with
  | none => true
  | some t => !(t == ts)

/-- The exact condition under which `run_etl` writes a ledger entry for `p`:
the walker listed it, its timestamp was obtained, it was selected as New or
Modified, its content was readable, and extraction yielded at least one row. -/
def ledgerUpdateCond (remote : Remote) (ledger0 : Ledger) (p : String) : Bool :=
  remote.files.contains p &&
    (match remote.mtime p with
     | some ts => selectedForProcessing ledger0 p ts && extractionNonEmpty remote p
     | none => false)

/-! Helper lemmas. -/

lemma foldl_append_eq_flatMap {α β : Type} (g : α → List β) :
    ∀ (l : List α) (acc : List β),
      l.foldl (fun a x => a ++ g x) acc = acc ++ l.flatMap g := by
  intro l
  induction l with
  | nil => intro acc; simp
  | cons x xs ih => intro acc; simp [ih, List.append_assoc]

lemma findSheetLoop_eq_find (sheets : List Sheet) (t : String) :
    findSheetLoop sheets t = sheets.find? (fun s => containsCI s.name t) := by
  induction sheets with
  | nil => rfl
  | cons s rest ih =>
    by_cases h : containsCI s.name t = true
    · simp [findSheetLoop, h, List.find?_cons]
    · simp only [findSheetLoop, h]
      simp only [Bool.not_eq_true] at h
      simp [List.find?_cons, h, ih]

/-- C6: each cleaning stage filters or maps, so the row count never grows:
after blank-row removal, QC filtering, required-key filtering and whitespace
trimming the count is at most the count before that stage, and the final
output of `clean_and_filter_data` has at most as many rows as its input. -/
theorem clean_and_filter_data_row_count_monotone (df : List Row) :
    (dropBlankRows df).length ≤ df.length ∧
    (dropQCRows (dropBlankRows df)).length ≤ (dropBlankRows df).length ∧
    (dropPartialRows (dropQCRows (dropBlankRows df))).length ≤
      (dropQCRows (dropBlankRows df)).length ∧
    (clean_and_filter_data df).length ≤
      (dropPartialRows (dropQCRows (dropBlankRows df))).length ∧
    (clean_and_filter_data df).length ≤ df.length := by
  have h1 : (dropBlankRows df).length ≤ df.length := List.length_filter_le _ _
  have h2 : (dropQCRows (dropBlankRows df)).length ≤ (dropBlankRows df).length :=
    List.length_filter_le _ _
  have h3 : (dropPartialRows (dropQCRows (dropBlankRows df))).length ≤
      (dropQCRows (dropBlankRows df)).length := by
    unfold dropPartialRows
    by_cases hks : (key_columns_exist (dropQCRows (dropBlankRows df))).isEmpty
    · simp [hks]
    · simp only [hks, if_false, Bool.false_eq_true]
      exact List.length_filter_le _ _
  have h4 : (clean_and_filter_data df).length =
      (dropPartialRows (dropQCRows (dropBlankRows df))).length := by
    unfold clean_and_filter_data trimStrings
    exact List.length_map _ _
  refine ⟨h1, h2, h3, le_of_eq h4, ?_⟩
  omega

/-- C8: the extraction loop of `process_excel_file` realises the specified
behaviour: the inner loop picks the first available sheet whose name contains
the target case-insensitively (`List.find?`), and the whole extraction equals
the concatenation, in target-name order, of each matched sheet's parsed rows
(first grid row as headers) tagged with `_SourceSheet` set to the matched
sheet's actual name; unmatched targets contribute nothing. -/
theorem process_excel_file_matches_spec (sheets : List Sheet) :
    (∀ t, findSheetLoop sheets t =
      sheets.find? (fun s => containsCI s.name t)) ∧
    process_excel_file sheets = extractSpec sheets := by
  refine ⟨fun t => findSheetLoop_eq_find sheets t, ?_⟩
  unfold process_excel_file extractSpec
  have hfun : (fun (acc : List Row) target =>
      match findSheetLoop sheets target with
      | some s => acc ++ tagSourceSheet s.name (parseSheet s)
      | none => acc) =
      (fun (acc : List Row) target => acc ++
        (match sheets.find? (fun s => containsCI s.name target) with
         | some s => (parseSheet s).map (fun r => setCol r "_SourceSheet" (some s.name))
         | none => [])) := by
    funext acc target
    rw [← findSheetLoop_eq_find]
    cases h : findSheetLoop sheets target with
    | none => simp
    | some s => simp [tagSourceSheet]
  rw [hfun, foldl_append_eq_flatMap]
  simp

lemma lowerData_pyStrip_le (s : String) :
    lowerData (pyStrip s) <:+: lowerData s := by
  unfold pyStrip lowerData
  show (((s.data.dropWhile Char.isWhitespace).reverse.dropWhile
      Char.isWhitespace).reverse).map Char.toLower <:+: s.data.map Char.toLower
  have h1 : s.data.dropWhile Char.isWhitespace <:+ s.data :=
    List.dropWhile_suffix _
  have h2 : ((s.data.dropWhile Char.isWhitespace).reverse.dropWhile
      Char.isWhitespace).reverse <+: s.data.dropWhile Char.isWhitespace := by
    rw [← List.reverse_suffix]
    simpa using List.dropWhile_suffix (l := (s.data.dropWhile Char.isWhitespace).reverse)
      Char.isWhitespace
  exact List.IsInfix.trans
    (List.IsPrefix.isInfix (List.IsPrefix.map Char.toLower h2))
    (List.IsSuffix.isInfix (List.IsSuffix.map Char.toLower h1))

lemma containsCI_of_containsCI_pyStrip {s pat : String}
    (h : containsCI (pyStrip s) pat = true) : containsCI s pat = true := by
  unfold containsCI at h ⊢
  rw [decide_eq_true_eq] at h ⊢
  exact List.IsInfix.trans h (lowerData_pyStrip_le s)

lemma mem_dropQC_of_mem_clean {df : List Row} {r : Row}
    (h : r ∈ clean_and_filter_data df) :
    ∃ r0, r0 ∈ dropQCRows (dropBlankRows df) ∧ r = trimRow r0 := by
  unfold clean_and_filter_data trimStrings at h
  obtain ⟨r0, hr0, rfl⟩ := List.mem_map.1 h
  refine ⟨r0, ?_, rfl⟩
  unfold dropPartialRows at hr0
  by_cases hks : (key_columns_exist (dropQCRows (dropBlankRows df))).isEmpty
  · simpa [hks] using hr0
  · simp only [hks, if_false, Bool.false_eq_true] at hr0
    exact (List.mem_filter.1 hr0).1

/-- C7: a row in which some field's string representation contains the
substring "Blank" in any casing never appears in the output of
`clean_and_filter_data`: the QC filter removes such rows, the later stages
only drop rows or strip edge whitespace (which cannot create an occurrence
of "Blank"), and a NaN field prints as "nan", which does not match. -/
theorem clean_and_filter_data_excludes_blank (df : List Row) (r : Row)
    (h : ∃ e ∈ r, containsCI (cellStr e.2) "Blank" = true) :
    r ∉ clean_and_filter_data df := by
  intro hmem
  obtain ⟨r0, hr0mem, rfl⟩ := mem_dropQC_of_mem_clean hmem
  obtain ⟨e, he, hblank⟩ := h
  unfold trimRow at he
  obtain ⟨e0, he0, rfl⟩ := List.mem_map.1 he
  obtain ⟨k0, v0⟩ := e0
  dsimp only at hblank
  have hq : containsCI (cellStr v0) "Blank" = true := by
    cases v0 with
    | none =>
      exact absurd hblank (by decide)
    | some s =>
      simp only [Option.map_some', cellStr, Option.getD_some] at hblank ⊢
      exact containsCI_of_containsCI_pyStrip hblank
  have hqc : rowHasQC r0 = true := by
    unfold rowHasQC
    rw [List.any_eq_true]
    refine ⟨(k0, v0), he0, ?_⟩
    rw [List.any_eq_true]
    exact ⟨"Blank", by simp [qc_patterns], hq⟩
  have hkeep := (List.mem_filter.1 hr0mem).2
  simp [hqc] at hkeep

/-- C7 witness: the concrete row with field value "Blank" satisfies the
hypothesis and is absent from the cleaned output of a frame containing it. -/
theorem clean_and_filter_data_excludes_blank_witness :
    (∃ e ∈ ([("Sample ID", some "Blank")] : Row),
      containsCI (cellStr e.2) "Blank" = true) ∧
    ([("Sample ID", some "Blank")] : Row) ∉
      clean_and_filter_data [[("Sample ID", some "Blank")]] :=
  ⟨by decide,
   clean_and_filter_data_excludes_blank [[("Sample ID", some "Blank")]]
     [("Sample ID", some "Blank")] (by decide)⟩

lemma find?_overwrite_self (l : Ledger) (p v : String)
    (h : l.any (fun e => e.1 == p) = true) :
    (l.map (fun e => if e.1 == p then (p, v) else e)).find?
      (fun e => e.1 == p) = some (p, v) := by
  induction l with
  | nil => simp at h
  | cons e t ih =>
    by_cases he : (e.1 == p) = true
    · rw [List.map_cons, if_pos he, List.find?_cons_of_pos _ (by simp)]
    · have ht : t.any (fun e => e.1 == p) = true := by
        simpa [List.any_cons, he] using h
      rw [List.map_cons, if_neg he, List.find?_cons_of_neg _ (by simpa using he)]
      exact ih ht

lemma find?_overwrite_ne (l : Ledger) (p v q : String) (hq : q ≠ p) :
    (l.map (fun e => if e.1 == p then (p, v) else e)).find?
      (fun e => e.1 == q) = l.find? (fun e => e.1 == q) := by
  induction l with
  | nil => rfl
  | cons e t ih =>
    by_cases he : (e.1 == p) = true
    · have hep : e.1 = p := by simpa using he
      have h1 : ((p, v).1 == q) = false := by
        simp [Ne.symm hq]
      have h2 : (e.1 == q) = false := by
        simp [hep, Ne.symm hq]
      rw [List.map_cons, if_pos he, List.find?_cons_of_neg _ (by simp [h1]),
        List.find?_cons_of_neg _ (by simp [h2])]
      exact ih
    · rw [List.map_cons, if_neg he]
      by_cases heq : (e.1 == q) = true
      · simp only [List.find?, heq]
      · have heq' : (e.1 == q) = false := by simpa using heq
        simp only [List.find?, heq']
        exact ih

lemma ledgerLookup_upsert (l : Ledger) (p v q : String) :
    ledgerLookup (ledgerUpsert l p v) q =
      if q = p then some v else ledgerLookup l q := by
  unfold ledgerUpsert ledgerLookup
  by_cases hany : l.any (fun e => e.1 == p) = true
  · rw [if_pos hany]
    by_cases hq : q = p
    · subst hq
      rw [find?_overwrite_self l q v hany]
      simp
    · rw [if_neg hq, find?_overwrite_ne l p v q hq]
  · rw [if_neg hany, List.find?_append]
    have hnone : l.find? (fun e => e.1 == p) = none := by
      rw [List.find?_eq_none]
      intro x hx
      simp only [Bool.not_eq_true] at hany
      exact (List.any_eq_false.1 hany) x hx
    by_cases hq : q = p
    · subst hq
      rw [hnone]
      simp [List.find?]
    · have h1 : ((p, v).1 == q) = false := by simp [Ne.symm hq]
      cases hf : l.find? (fun e => e.1 == q) with
      | none => simp [hf, List.find?, h1, hq]
      | some e => simp [hf, hq]

/-- The per-file condition, independent of the walker listing: the timestamp
was obtained, the file is New or Modified against `ledger0`, and extraction
produced rows.  `ledgerUpdateCond` is this conjoined with the listing. -/
def goodStep (remote : Remote) (ledger0 : Ledger) (p : String) : Bool :=
  match remote.mtime p with
  | some ts => selectedForProcessing ledger0 p ts && extractionNonEmpty remote p
  | none => false

lemma ledgerUpdateCond_eq (remote : Remote) (ledger0 : Ledger) (p : String) :
    ledgerUpdateCond remote ledger0 p =
      (remote.files.contains p && goodStep remote ledger0 p) := rfl

lemma processOne_mtime_none {remote : Remote} {ledger0 : Ledger} {p : String}
    (h : remote.mtime p = none) (acc : List Row × Ledger) :
    processOne remote ledger0 acc p = acc := by
  unfold processOne
  rw [h]

lemma processSelected_of_extraction_empty {remote : Remote} {p : String}
    (h : extractionNonEmpty remote p = false) (acc : List Row × Ledger)
    (ts : String) : processSelected remote acc p ts = acc := by
  unfold processSelected
  unfold extractionNonEmpty at h
  cases hc : remote.content p with
  | none => rfl
  | some sheets =>
    rw [hc] at h
    dsimp only at h
    have hempty : (process_excel_file sheets).isEmpty = true := by
      cases hb : (process_excel_file sheets).isEmpty
      · rw [hb] at h; simp at h
      · rfl
    simp [hempty]

lemma processSelected_ledger {remote : Remote} {p : String}
    (h : extractionNonEmpty remote p = true) (acc : List Row × Ledger)
    (ts : String) :
    (processSelected remote acc p ts).2 = ledgerUpsert acc.2 p ts := by
  unfold processSelected
  unfold extractionNonEmpty at h
  cases hc : remote.content p with
  | none => rw [hc] at h; exact absurd h (by simp)
  | some sheets =>
    rw [hc] at h
    dsimp only at h
    have hne : (process_excel_file sheets).isEmpty = false := by
      cases hb : (process_excel_file sheets).isEmpty
      · rfl
      · rw [hb] at h; simp at h
    simp [hne]

lemma processOne_goodStep_false {remote : Remote} {ledger0 : Ledger} {p : String}
    (h : goodStep remote ledger0 p = false) (acc : List Row × Ledger) :
    processOne remote ledger0 acc p = acc := by
  unfold processOne
  unfold goodStep at h
  cases hm : remote.mtime p with
  | none => rfl
  | some ts =>
    rw [hm] at h
    cases hl : ledgerLookup ledger0 p with
    | some t =>
      by_cases hts : t = ts
      · simp [hl, hts]
      · have hsel : selectedForProcessing ledger0 p ts = true := by
          unfold selectedForProcessing
          rw [hl]
          simp [hts]
        have hext : extractionNonEmpty remote p = false := by
          rcases Bool.and_eq_false_iff.1 h with h1 | h1
          · exact absurd hsel (by simp [h1])
          · exact h1
        simp only [hl, if_neg hts]
        exact processSelected_of_extraction_empty hext acc ts
    | none =>
      have hsel : selectedForProcessing ledger0 p ts = true := by
        unfold selectedForProcessing
        rw [hl]
      have hext : extractionNonEmpty remote p = false := by
        rcases Bool.and_eq_false_iff.1 h with h1 | h1
        · exact absurd hsel (by simp [h1])
        · exact h1
      simp only [hl]
      exact processSelected_of_extraction_empty hext acc ts

lemma processOne_ledger_of_goodStep {remote : Remote} {ledger0 : Ledger}
    {p ts : String} (h : goodStep remote ledger0 p = true)
    (hm : remote.mtime p = some ts) (acc : List Row × Ledger) :
    (processOne remote ledger0 acc p).2 = ledgerUpsert acc.2 p ts := by
  unfold processOne
  unfold goodStep at h
  rw [hm] at h ⊢
  have hsel : selectedForProcessing ledger0 p ts = true :=
    (Bool.and_eq_true_iff.1 h).1
  have hext : extractionNonEmpty remote p = true :=
    (Bool.and_eq_true_iff.1 h).2
  cases hl : ledgerLookup ledger0 p with
  | some t =>
    have hts : t ≠ ts := by
      unfold selectedForProcessing at hsel
      rw [hl] at hsel
      simpa using hsel
    simp only [hl, if_neg hts]
    exact processSelected_ledger hext acc ts
  | none =>
    simp only [hl]
    exact processSelected_ledger hext acc ts

lemma processOne_ledger_other {remote : Remote} {ledger0 : Ledger}
    {p q : String} (hq : q ≠ p) (acc : List Row × Ledger) :
    ledgerLookup (processOne remote ledger0 acc q).2 p = ledgerLookup acc.2 p := by
  unfold processOne
  cases hm : remote.mtime q with
  | none => rfl
  | some ts =>
    have hps : ∀ ts', ledgerLookup (processSelected remote acc q ts').2 p =
        ledgerLookup acc.2 p := by
      intro ts'
      unfold processSelected
      cases hc : remote.content q with
      | none => rfl
      | some sheets =>
        by_cases he : (process_excel_file sheets).isEmpty
        · simp [he]
        · simp only [he, Bool.false_eq_true, if_false]
          rw [ledgerLookup_upsert]
          simp [Ne.symm hq]
    cases hl : ledgerLookup ledger0 q with
    | some t =>
      by_cases hts : t = ts
      · simp [hts]
      · simp only [if_neg hts]
        exact hps ts
    | none => exact hps ts

lemma goodStep_mtime_some {remote : Remote} {ledger0 : Ledger} {p : String}
    (h : goodStep remote ledger0 p = true) :
    ∃ ts, remote.mtime p = some ts := by
  unfold goodStep at h
  cases hm : remote.mtime p with
  | none => rw [hm] at h; exact absurd h (by simp)
  | some ts => exact ⟨ts, rfl⟩

lemma foldl_ledger_lookup (remote : Remote) (ledger0 : Ledger) (p : String) :
    ∀ (fs : List String) (acc : List Row × Ledger),
      ledgerLookup ((fs.foldl (processOne remote ledger0) acc)).2 p =
        if fs.contains p && goodStep remote ledger0 p then remote.mtime p
        else ledgerLookup acc.2 p := by
  intro fs
  induction fs with
  | nil => intro acc; simp
  | cons q fs ih =>
    intro acc
    rw [List.foldl_cons, ih]
    by_cases hg : goodStep remote ledger0 p = true
    · by_cases hin : fs.contains p = true
      · have hmem : p ∈ fs := by simpa using hin
        simp [hin, hg, List.contains_cons, hmem]
      · have hfc : fs.contains p = false := by
          cases hb : fs.contains p
          · rfl
          · exact absurd hb hin
        by_cases hq : q = p
        · subst hq
          obtain ⟨ts, hm⟩ := goodStep_mtime_some hg
          rw [processOne_ledger_of_goodStep hg hm acc]
          rw [ledgerLookup_upsert]
          simp [hfc, hg, hm, List.contains_cons]
        · have hcontains : (q :: fs).contains p = false := by
            simp only [List.contains_cons, Bool.or_eq_false_iff, beq_eq_false_iff_ne]
            exact ⟨Ne.symm hq, hfc⟩
          rw [hcontains]
          simp only [hfc, Bool.false_and, if_false, Bool.false_eq_true]
          exact processOne_ledger_other hq acc
    · have hgf : goodStep remote ledger0 p = false := by
        cases hb : goodStep remote ledger0 p
        · rfl
        · exact absurd hb hg
      simp only [hgf, Bool.and_false, if_false, Bool.false_eq_true]
      by_cases hq : q = p
      · subst hq
        rw [processOne_goodStep_false hgf acc]
      · exact processOne_ledger_other hq acc

lemma run_etl_core_ledger (remote : Remote) (ledger0 : Ledger) (p : String) :
    ledgerLookup (run_etl_core remote ledger0).2 p =
      if ledgerUpdateCond remote ledger0 p then remote.mtime p
      else ledgerLookup ledger0 p := by
  unfold run_etl_core
  rw [foldl_ledger_lookup, ledgerUpdateCond_eq]

/-- C1 (amended): the in-memory ledger produced by a run maps file `p` to its
current remote timestamp exactly when `p` was listed, its timestamp was
obtained, it was classified New or Modified, its content could be read AND
extraction produced at least one row (`ledgerUpdateCond`); in every other
case — including a selected file whose extraction yielded zero rows — the
entry is left exactly as it was at run start.  In particular a run in which
cleaning drops every extracted row still updates the entry, since the
condition only inspects the pre-cleaning extraction. -/
theorem run_etl_ledger_update_characterization (remote : Remote)
    (ledger0 : Ledger) (p : String) :
    ledgerLookup (run_etl_core remote ledger0).2 p =
      if ledgerUpdateCond remote ledger0 p then remote.mtime p
      else ledgerLookup ledger0 p :=
  run_etl_core_ledger remote ledger0 p

/-- Concrete remote store for the C1 counterexample: one file, readable, with
a valid timestamp, whose only sheet matches no target table name. -/
def exSheetOther : Sheet := ⟨"Sheet1", [[some "A"], [some "x"]]⟩

def exRemoteA : Remote :=
  { files := ["A.xlsx"]
    mtime := fun p => if p = "A.xlsx" then some "2024-01-01T00:00:00+00:00" else none
    content := fun p => if p = "A.xlsx" then some [exSheetOther] else none }

/-- C1 counterexample: file "A.xlsx" is New (empty ledger), its timestamp is
obtained, its content is read successfully, extraction does not hard-fail but
yields zero rows (no sheet matches a target name) — and contrary to the
claim, the run leaves it with NO ledger entry, so it is retried forever. -/
theorem run_etl_no_ledger_update_on_empty_extraction :
    ledgerLookup ([] : Ledger) "A.xlsx" = none ∧
    exRemoteA.mtime "A.xlsx" = some "2024-01-01T00:00:00+00:00" ∧
    exRemoteA.content "A.xlsx" = some [exSheetOther] ∧
    process_excel_file [exSheetOther] = [] ∧
    ledgerLookup (run_etl_core exRemoteA []).2 "A.xlsx" = none := by
  decide

/-- C2: with the current remote timestamp obtained as `ts`, the detector
classifies a file as New exactly when its path has no ledger entry, Unchanged
exactly when the entry equals `ts` by string equality, Modified otherwise;
and the file loop skips the file untouched (without reading it) precisely on
Unchanged, proceeding to the read-and-extract path `processSelected` exactly
for New and Modified files. -/
theorem run_etl_classification (remote : Remote) (ledger0 : Ledger)
    (acc : List Row × Ledger) (p ts : String)
    (h : remote.mtime p = some ts) :
    (classify ledger0 p ts = FileChangeState.New ↔
      ledgerLookup ledger0 p = none) ∧
    (classify ledger0 p ts = FileChangeState.Unchanged ↔
      ledgerLookup ledger0 p = some ts) ∧
    (classify ledger0 p ts = FileChangeState.Modified ↔
      ∃ t, ledgerLookup ledger0 p = some t ∧ t ≠ ts) ∧
    processOne remote ledger0 acc p =
      (if classify ledger0 p ts = FileChangeState.Unchanged then acc
       else processSelected remote acc p ts) := by
  unfold classify processOne
  rw [h]
  cases hl : ledgerLookup ledger0 p with
  | none => simp
  | some t =>
    by_cases hts : t = ts
    · subst hts
      simp
    · simp [hts]

/-- C2 witness: concrete instantiation — a ledger entry equal to the current
timestamp string is classified Unchanged and the loop leaves the accumulator
untouched. -/
theorem run_etl_classification_witness :
    ((⟨["A.xlsx"], fun _ => some "T1", fun _ => none⟩ : Remote).mtime "A.xlsx"
        = some "T1") ∧
    ((classify [("A.xlsx", "T1")] "A.xlsx" "T1" = FileChangeState.New ↔
      ledgerLookup [("A.xlsx", "T1")] "A.xlsx" = none) ∧
    (classify [("A.xlsx", "T1")] "A.xlsx" "T1" = FileChangeState.Unchanged ↔
      ledgerLookup [("A.xlsx", "T1")] "A.xlsx" = some "T1") ∧
    (classify [("A.xlsx", "T1")] "A.xlsx" "T1" = FileChangeState.Modified ↔
      ∃ t, ledgerLookup [("A.xlsx", "T1")] "A.xlsx" = some t ∧ t ≠ "T1") ∧
    processOne ⟨["A.xlsx"], fun _ => some "T1", fun _ => none⟩
        [("A.xlsx", "T1")] (([], [("A.xlsx", "T1")]) : List Row × Ledger) "A.xlsx" =
      (if classify [("A.xlsx", "T1")] "A.xlsx" "T1" = FileChangeState.Unchanged
       then (([], [("A.xlsx", "T1")]) : List Row × Ledger)
       else processSelected ⟨["A.xlsx"], fun _ => some "T1", fun _ => none⟩
         (([], [("A.xlsx", "T1")]) : List Row × Ledger) "A.xlsx" "T1")) :=
  ⟨rfl, run_etl_classification ⟨["A.xlsx"], fun _ => some "T1", fun _ => none⟩
    [("A.xlsx", "T1")] ([], [("A.xlsx", "T1")]) "A.xlsx" "T1" rfl⟩

/-- C9: a file whose remote timestamp cannot be obtained is skipped entirely:
the loop iteration returns its accumulator unchanged for every accumulator
(so nothing is read and no rows are appended for that file), and at run end
the file's ledger entry — present or absent — is exactly what it was at run
start, so the file will be examined again on a future run. -/
theorem run_etl_skips_file_without_mtime (remote : Remote) (ledger0 : Ledger)
    (p : String) (h : remote.mtime p = none) :
    (∀ acc, processOne remote ledger0 acc p = acc) ∧
    ledgerLookup (run_etl_core remote ledger0).2 p = ledgerLookup ledger0 p := by
  constructor
  · intro acc
    exact processOne_mtime_none h acc
  · rw [run_etl_core_ledger]
    have hcond : ledgerUpdateCond remote ledger0 p = false := by
      unfold ledgerUpdateCond
      rw [h]
      simp
    rw [hcond]
    simp

/-- C9 witness: a concrete store whose timestamp fetch fails for "C.xlsx". -/
theorem run_etl_skips_file_without_mtime_witness :
    ((⟨["C.xlsx"], fun _ => none, fun _ => none⟩ : Remote).mtime "C.xlsx"
        = none) ∧
    ((∀ acc, processOne ⟨["C.xlsx"], fun _ => none, fun _ => none⟩
        [("C.xlsx", "T0")] acc "C.xlsx" = acc) ∧
     ledgerLookup (run_etl_core ⟨["C.xlsx"], fun _ => none, fun _ => none⟩
        [("C.xlsx", "T0")]).2 "C.xlsx" =
       ledgerLookup [("C.xlsx", "T0")] "C.xlsx") :=
  ⟨rfl, run_etl_skips_file_without_mtime
    ⟨["C.xlsx"], fun _ => none, fun _ => none⟩ [("C.xlsx", "T0")] "C.xlsx" rfl⟩

lemma goodStep_second_run_false (remote : Remote) (L0 : Ledger) {p : String}
    (hmem : p ∈ remote.files) :
    goodStep remote (run_etl_core remote L0).2 p = false := by
  cases hm : remote.mtime p with
  | none =>
    unfold goodStep
    rw [hm]
  | some ts =>
    have hlook := run_etl_core_ledger remote L0 p
    by_cases hcond : ledgerUpdateCond remote L0 p = true
    · rw [if_pos hcond, hm] at hlook
      unfold goodStep selectedForProcessing
      rw [hm, hlook]
      simp
    · have hcf : ledgerUpdateCond remote L0 p = false := by
        cases hb : ledgerUpdateCond remote L0 p
        · rfl
        · exact absurd hb hcond
      rw [hcf] at hlook
      simp only [Bool.false_eq_true, if_false] at hlook
      have hcontains : remote.files.contains p = true := by simpa using hmem
      unfold ledgerUpdateCond at hcf
      rw [hm, hcontains] at hcf
      dsimp only at hcf
      rw [Bool.true_and] at hcf
      rcases Bool.and_eq_false_iff.1 hcf with hsel | hext
      · have hts : ledgerLookup L0 p = some ts := by
          unfold selectedForProcessing at hsel
          cases hl : ledgerLookup L0 p with
          | none => rw [hl] at hsel; simp at hsel
          | some t =>
            rw [hl] at hsel
            have : t = ts := by simpa using hsel
            rw [this]
        unfold goodStep selectedForProcessing
        rw [hm, hlook, hts]
        simp
      · unfold goodStep
        rw [hm, hext]
        simp

lemma foldl_processOne_id (remote : Remote) (L1 : Ledger) (fs : List String)
    (h : ∀ q ∈ fs, ∀ acc, processOne remote L1 acc q = acc) :
    ∀ acc, fs.foldl (processOne remote L1) acc = acc := by
  induction fs with
  | nil => intro acc; rfl
  | cons q fs ih =>
    intro acc
    rw [List.foldl_cons, h q (List.mem_cons_self q fs) acc]
    exact ih (fun r hr a => h r (List.mem_cons_of_mem q hr) a) acc

lemma run_etl_core_second (remote : Remote) (L0 : Ledger) :
    run_etl_core remote ((run_etl_core remote L0).2) =
      ([], (run_etl_core remote L0).2) := by
  show remote.files.foldl (processOne remote ((run_etl_core remote L0).2))
    ([], (run_etl_core remote L0).2) = ([], (run_etl_core remote L0).2)
  apply foldl_processOne_id
  intro q hq acc
  exact processOne_goodStep_false (goodStep_second_run_false remote L0 hq) acc

lemma run_etl_true_ledgerFile (remote : Remote) (disk : DiskState) :
    (run_etl true remote disk).ledgerFile =
      (run_etl_core remote disk.ledgerFile).2 := by
  unfold run_etl commitRun
  by_cases h : (run_etl_core remote disk.ledgerFile).1.isEmpty <;> simp [h]

/-- C4: a full successful run persists the updated ledger, and a second run
over the same remote state (same listing, same timestamps, same contents)
appends zero rows — its in-memory accumulator stays empty — and leaves the
master dataset exactly as the first run left it. -/
theorem run_etl_idempotent (remote : Remote) (disk : DiskState) :
    (run_etl_core remote ((run_etl true remote disk).ledgerFile)).1 = [] ∧
    (run_etl true remote (run_etl true remote disk)).master =
      (run_etl true remote disk).master := by
  have hl := run_etl_true_ledgerFile remote disk
  have h2 := run_etl_core_second remote disk.ledgerFile
  constructor
  · rw [hl, h2]
  · have hrun : run_etl true remote (run_etl true remote disk) =
        commitRun true (run_etl true remote disk)
          (run_etl_core remote ((run_etl true remote disk).ledgerFile)).1
          (run_etl_core remote ((run_etl true remote disk).ledgerFile)).2 := rfl
    rw [hrun, hl, h2]
    unfold commitRun
    simp

/-- C3: when the master-dataset write fails on a run that accumulated rows,
the commit is aborted before ledger persistence: the on-disk ledger (and the
master) keep their pre-run contents, so no file handled in that run is
recorded as processed. -/
theorem run_etl_write_failure_preserves_state (remote : Remote)
    (disk : DiskState)
    (h : (run_etl_core remote disk.ledgerFile).1 ≠ []) :
    (run_etl false remote disk).ledgerFile = disk.ledgerFile ∧
    (run_etl false remote disk).master = disk.master := by
  have hne : (run_etl_core remote disk.ledgerFile).1.isEmpty = false :=
    List.isEmpty_eq_false.2 h
  unfold run_etl commitRun
  simp [hne]

/-- Concrete remote for the C3 witness: one New file with a matching
"Batch Sheet" whose single data row survives cleaning. -/
def exSheetBatch : Sheet :=
  ⟨"Batch Sheet", [[some "Sample ID", some "Result"], [some "S1", some "5"]]⟩

def exRemoteB : Remote :=
  { files := ["B.xlsx"]
    mtime := fun p => if p = "B.xlsx" then some "2024-01-01T00:00:00+00:00" else none
    content := fun p => if p = "B.xlsx" then some [exSheetBatch] else none }

/-- C3 witness: on that store the run accumulates a row, and with the master
write failing the disk state (master and ledger file) is unchanged. -/
theorem run_etl_write_failure_preserves_state_witness :
    ((run_etl_core exRemoteB (⟨none, []⟩ : DiskState).ledgerFile).1 ≠ []) ∧
    ((run_etl false exRemoteB ⟨none, []⟩).ledgerFile =
        (⟨none, []⟩ : DiskState).ledgerFile ∧
     (run_etl false exRemoteB ⟨none, []⟩).master =
        (⟨none, []⟩ : DiskState).master) :=
  ⟨by decide, run_etl_write_failure_preserves_state exRemoteB ⟨none, []⟩
    (by decide)⟩

/-- C5: evaluation of the modelled write at a concrete failing input — while
`save_processed_files_log` rewrites the ledger from one entry to another, the
file passes through the truncated state "" left by `open(log_file, 'w')`,
which is neither the pre-write nor the post-write ledger contents; there is
no write-then-rename step shielding readers from it. -/
theorem save_processed_files_log_truncation :
    (save_processed_files_log_states
        (serializeLedger [("A.xlsx", "2024-01-01T00:00:00+00:00")])
        [("A.xlsx", "2024-02-01T00:00:00+00:00")])[1]? = some "" ∧
    "" ≠ serializeLedger [("A.xlsx", "2024-01-01T00:00:00+00:00")] ∧
    "" ≠ serializeLedger [("A.xlsx", "2024-02-01T00:00:00+00:00")] := by
  constructor
  · rfl
  constructor
  · decide
  · decide

lemma getD_set_self {α : Type} (l : List α) (i : Nat) (v d : α)
    (h : i < l.length) : (l.set i v).getD i d = v := by
  rw [List.getD_eq_getElem?_getD, List.getElem?_set_self h]
  rfl

lemma getD_set_ne {α : Type} (l : List α) {i j : Nat} (v d : α) (h : i ≠ j) :
    (l.set i v).getD j d = l.getD j d := by
  rw [List.getD_eq_getElem?_getD, List.getElem?_set_ne h,
    ← List.getD_eq_getElem?_getD]

lemma getD_append_left {α : Type} (l l2 : List α) (j : Nat) (d : α)
    (h : j < l.length) : (l ++ l2).getD j d = l.getD j d := by
  rw [List.getD_eq_getElem?_getD, List.getElem?_append_left h,
    ← List.getD_eq_getElem?_getD]

lemma getD_append_length {α : Type} (l : List α) (v d : α) :
    (l ++ [v]).getD l.length d = v := by
  rw [List.getD_eq_getElem?_getD, List.getElem?_append_right (le_refl _)]
  simp

/-- C10 counterexample: passing a frame holding one fully-blank row, the
caller's object is no longer equal to the input after the call — the in-place
`dropna(how='all', inplace=True)` of line 125 emptied it — refuting the claim
that the cleaning stage does not mutate the caller's input data structure. -/
theorem clean_and_filter_heap_mutates_caller :
    (clean_and_filter_heap [[[("Sample ID", (none : Cell))]]] 0).1.getD 0 [] = [] ∧
    ([[[("Sample ID", (none : Cell))]]] : List (List Row)).getD 0 [] ≠ [] := by
  constructor
  · rfl
  · decide

/-- C10 (amended): the returned frame is a pure function of the input — it
always equals `clean_and_filter_data` of the argument's initial value, so
equal inputs give equal outputs — but the caller's object is mutated: after
the call it holds the input with fully-blank rows removed (stage 1 applied in
place); the remaining stages act on a fresh object. -/
theorem clean_and_filter_heap_spec (heap : List (List Row)) (ref : Nat)
    (df : List Row) (href : ref < heap.length) (hdf : heap.getD ref [] = df) :
    (clean_and_filter_heap heap ref).1.getD ref [] = dropBlankRows df ∧
    (clean_and_filter_heap heap ref).1.getD
      (clean_and_filter_heap heap ref).2 [] = clean_and_filter_data df := by
  subst hdf
  simp only [clean_and_filter_heap]
  have e1 : (heap.set ref (dropBlankRows (heap.getD ref []))).getD ref [] =
      dropBlankRows (heap.getD ref []) := getD_set_self heap ref _ _ href
  rw [e1]
  set A := heap.getD ref [] with hA
  set h1 := heap.set ref (dropBlankRows A) with hh1
  set v2 := dropQCRows (dropBlankRows A) with hv2
  have e2 : (h1 ++ [v2]).getD h1.length [] = v2 := getD_append_length h1 v2 []
  rw [e2]
  set h3 := (h1 ++ [v2]).set h1.length (dropPartialRows v2) with hh3
  have hlen3 : h3.length = h1.length + 1 := by
    rw [hh3]
    simp
  have e3 : h3.getD h1.length [] = dropPartialRows v2 := by
    rw [hh3]
    exact getD_set_self _ _ _ _ (by simp)
  rw [e3]
  have hlen1 : h1.length = heap.length := by
    rw [hh1]
    simp
  have hne : h1.length ≠ ref := by omega
  have hreflt : ref < h1.length := by omega
  constructor
  · rw [getD_set_ne h3 _ _ hne, hh3, getD_set_ne _ _ _ hne,
      getD_append_left _ _ _ _ hreflt, hh1]
    exact getD_set_self heap ref _ _ href
  · rw [getD_set_self h3 _ _ _ (by omega)]
    rfl

/-- C10 witness: a concrete frame whose single row survives every stage. -/
theorem clean_and_filter_heap_spec_witness :
    (0 < ([[[("Sample ID", some "S1"), ("Result", some "5")]]] :
        List (List Row)).length) ∧
    (([[[("Sample ID", some "S1"), ("Result", some "5")]]] :
        List (List Row)).getD 0 [] =
      [[("Sample ID", some "S1"), ("Result", some "5")]]) ∧
    ((clean_and_filter_heap [[[("Sample ID", some "S1"), ("Result", some "5")]]]
        0).1.getD 0 [] =
      dropBlankRows [[("Sample ID", some "S1"), ("Result", some "5")]] ∧
     (clean_and_filter_heap [[[("Sample ID", some "S1"), ("Result", some "5")]]]
        0).1.getD
       (clean_and_filter_heap [[[("Sample ID", some "S1"),
         ("Result", some "5")]]] 0).2 [] =
      clean_and_filter_data [[("Sample ID", some "S1"), ("Result", some "5")]]) :=
  ⟨by decide, rfl,
   clean_and_filter_heap_spec [[[("Sample ID", some "S1"), ("Result", some "5")]]]
     0 [[("Sample ID", some "S1"), ("Result", some "5")]] (by decide) rfl⟩
